import Mathlib

/-
Shallow embedding of the `copier` package (src/copier.go) and a verification
of its specification.

The Go package copies data between arbitrarily shaped struct values using
reflection.  The embedding models reflect types and values as inductive
trees:

  * `GoType` / `GoValue` model `reflect.Type` / `reflect.Value` over the
    kinds the engine manipulates (Invalid, Int of a given bit width,
    String, Ptr, Slice, Map, Struct).
  * Interface satisfaction (`pbTimestamp`, `sql.Scanner`, `driver.Valuer`,
    `fmt.Stringer`) is detected in the source on the *address* of a value
    (`to.Addr().Interface().(...)`), i.e. on the pointer method set of a
    named type; the embedding records, per named struct type, which of
    these four interfaces the pointer type implements (`Caps`).
  * User code behind those interfaces (`Scan`, `Value`, `String`, methods
    found by `MethodByName`) and the external `encoding/json` routines are
    not part of this repository; they enter the model as an explicit
    environment (`Env`) of opaque functions, so every theorem quantifies
    over (or fixes) that environment.
  * Addressability is tracked explicitly: `reflect.ValueOf(x)` is not
    addressable, dereferencing a pointer yields an addressable value, and
    slice elements are addressable.  Capability checks on the source side
    are guarded by `from.CanAddr()` exactly as in the source.
  * Panics of the reflect API (`Value.Set` with a value of the wrong type,
    `Value.SetString` on a non-string value, `FieldByName` on a non-struct
    value, field access through a nil embedded pointer) are modelled as
    `Except.error` / `COut.panic` results.

`Copy` itself is modelled with explicit fuel (`copyFuel`); the public
`Copy` supplies fuel `sizeV from + 1`, and the termination theorem shows
this fuel is never exhausted.
-/

/-- Pointer-method-set capabilities of a named struct type: which of the
four structural interfaces of the source (`pbTimestamp`, `sql.Scanner`,
`driver.Valuer`, `fmt.Stringer`) are implemented by a pointer to it. -/
structure Caps where
  timestamp : Bool
  scanner : Bool
  valuer : Bool
  stringer : Bool
  deriving DecidableEq, Repr

/-- Model of `reflect.Type` restricted to the kinds the engine manipulates.
Struct types carry their name, package path (`PkgPath`), pointer-method-set
capabilities and field declarations `(name, type, anonymous)`. -/
inductive GoType where
  | tinvalid
  | tint (bits : Nat)
  | tstring
  | tptr (elem : GoType)
  | tslice (elem : GoType)
  | tmap (key val : GoType)
  | tstruct (name pkg : String) (caps : Caps) (fields : List (String × GoType × Bool))
  deriving Repr

/-- A struct field declaration: name, type, and the `Anonymous` flag. -/
abbrev FieldT := String × GoType × Bool

mutual

/-- Decidable structural equality of `GoType` (Go type identity). -/
def tyEq : GoType → GoType → Bool
  | .tinvalid, .tinvalid => true
  | .tint a, .tint b => a == b
  | .tstring, .tstring => true
  | .tptr a, .tptr b => tyEq a b
  | .tslice a, .tslice b => tyEq a b
  | .tmap k1 v1, .tmap k2 v2 => tyEq k1 k2 && tyEq v1 v2
  | .tstruct n1 p1 c1 f1, .tstruct n2 p2 c2 f2 =>
      n1 == n2 && p1 == p2 && c1 == c2 && fieldsEq f1 f2
  | _, _ => false

/-- Pointwise `tyEq` on field declaration lists. -/
def fieldsEq : List FieldT → List FieldT → Bool
  | [], [] => true
  | (n1, t1, a1) :: r1, (n2, t2, a2) :: r2 =>
      n1 == n2 && tyEq t1 t2 && a1 == a2 && fieldsEq r1 r2
  | _, _ => false

end

mutual

theorem tyEq_refl : ∀ t, tyEq t t = true
  | .tinvalid => rfl
  | .tint a => by simp [tyEq]
  | .tstring => rfl
  | .tptr a => by simp [tyEq, tyEq_refl a]
  | .tslice a => by simp [tyEq, tyEq_refl a]
  | .tmap k v => by simp [tyEq, tyEq_refl k, tyEq_refl v]
  | .tstruct n p c f => by simp [tyEq, fieldsEq_refl f]

theorem fieldsEq_refl : ∀ l, fieldsEq l l = true
  | [] => rfl
  | (n, t, a) :: r => by simp [fieldsEq, tyEq_refl t, fieldsEq_refl r]

end

/-- Model of `reflect.Value`.  Pointer, slice and map values remember their
element types (so that `Type()` is recoverable); slices and maps remember
whether they are nil.  `invalid` is the zero `reflect.Value`. -/
inductive GoValue where
  | invalid
  | vint (bits : Nat) (v : Int)
  | vstr (s : String)
  | vptr (elemTy : GoType) (pointee : Option GoValue)
  | vslice (elemTy : GoType) (isNil : Bool) (elems : List GoValue)
  | vmap (keyTy valTy : GoType) (isNil : Bool) (entries : List (GoValue × GoValue))
  | vstruct (name pkg : String) (caps : Caps) (ftys : List FieldT) (vals : List GoValue)
  deriving Repr

/-- Model of `reflect.Kind` (restricted to the kinds that occur). -/
inductive GKind where
  | kInvalid
  | kInt
  | kString
  | kPtr
  | kSlice
  | kMap
  | kStruct
  deriving DecidableEq, Repr

/-- Kind of a type. -/
def kindOfT : GoType → GKind
  | .tinvalid => .kInvalid
  | .tint _ => .kInt
  | .tstring => .kString
  | .tptr _ => .kPtr
  | .tslice _ => .kSlice
  | .tmap _ _ => .kMap
  | .tstruct _ _ _ _ => .kStruct

/-- Model of `Value.Type()`. -/
def typeOf : GoValue → GoType
  | .invalid => .tinvalid
  | .vint b _ => .tint b
  | .vstr _ => .tstring
  | .vptr e _ => .tptr e
  | .vslice e _ _ => .tslice e
  | .vmap k v _ _ => .tmap k v
  | .vstruct n p c f _ => .tstruct n p c f

/-- Model of `Value.Kind()`. -/
def kindOfV (v : GoValue) : GKind := kindOfT (typeOf v)

/-- Capabilities of a type (empty for everything but named structs). -/
def capsOf : GoType → Caps
  | .tstruct _ _ c _ => c
  | _ => ⟨false, false, false, false⟩

/-- Model of `Type.PkgPath()` (empty for unnamed and builtin types). -/
def pkgPathOf : GoType → String
  | .tstruct _ p _ _ => p
  | _ => ""

/-- Name of a named struct type (used to key the environment's method and
interface implementations). -/
def structName : GoType → String
  | .tstruct n _ _ _ => n
  | _ => ""

/-- Model of `Value.IsValid()`. -/
def isValid : GoValue → Bool
  | .invalid => false
  | _ => true

/-- Model of `Value.IsNil()` on the kinds where the engine calls it. -/
def isNilV : GoValue → Bool
  | .vptr _ none => true
  | .vslice _ n _ => n
  | .vmap _ _ n _ => n
  | _ => false

/-- Model of `Value.Len()` for slices. -/
def lenV : GoValue → Nat
  | .vslice _ _ es => es.length
  | _ => 0

mutual

/-- Model of `reflect.Zero(t)` / `reflect.New(t).Elem()`. -/
def zeroValue : GoType → GoValue
  | .tinvalid => .invalid
  | .tint b => .vint b 0
  | .tstring => .vstr ""
  | .tptr e => .vptr e none
  | .tslice e => .vslice e true []
  | .tmap k v => .vmap k v true []
  | .tstruct n p c fs => .vstruct n p c fs (zeroFields fs)

/-- Zero values of a field declaration list. -/
def zeroFields : List FieldT → List GoValue
  | [] => []
  | (_, t, _) :: r => zeroValue t :: zeroFields r

end

/-- Model of the source's `indirect`: dereference pointers until a
non-pointer value is reached; a nil pointer dereferences to the invalid
value (as `Value.Elem()` does). -/
def indirect : GoValue → GoValue
  | .vptr _ (some p) => indirect p
  | .vptr _ none => .invalid
  | v => v

/-- Model of the source's `indirectType`: strip pointer and slice layers. -/
def indirectType : GoType → GoType
  | .tptr t => indirectType t
  | .tslice t => indirectType t
  | t => t

/-- Write a new core value back through the pointer spine that `indirect`
walked (writing through a nil pointer writes nothing; that situation is
excluded on all reachable paths). -/
def putBack : GoValue → GoValue → GoValue
  | .vptr t (some p), c => .vptr t (some (putBack p c))
  | .vptr t none, _ => .vptr t none
  | _, c => c

/-- Whether `indirect (reflect.ValueOf v)` is addressable: the original
value must be a pointer and the fully dereferenced value must be valid. -/
def canAddrIndirect (v : GoValue) : Bool :=
  (kindOfV v == .kPtr) && isValid (indirect v)

mutual

/-- Size measure on values (used as the fuel bound for `Copy` and for the
termination argument).  `sizeO none` is 1 so that dereferencing a nil
pointer strictly decreases the measure. -/
def sizeV : GoValue → Nat
  | .invalid => 1
  | .vint _ _ => 1
  | .vstr _ => 1
  | .vptr _ p => 1 + sizeO p
  | .vslice _ _ es => 1 + sizeL es
  | .vmap _ _ _ en => 1 + sizeP en
  | .vstruct _ _ _ _ vs => 1 + sizeL vs

def sizeO : Option GoValue → Nat
  | none => 1
  | some v => 1 + sizeV v

def sizeL : List GoValue → Nat
  | [] => 0
  | v :: r => 1 + sizeV v + sizeL r

def sizeP : List (GoValue × GoValue) → Nat
  | [] => 0
  | (a, b) :: r => 1 + sizeV a + sizeV b + sizeP r

end

/-- Model of `Type.AssignableTo` restricted to this type grammar (all types
of the grammar are distinct named or builtin types, so assignability is
type identity). -/
def assignableTo (a b : GoType) : Bool := tyEq a b

/-- Model of `Type.ConvertibleTo` restricted to this type grammar: type
identity, or both integer types. -/
def convertibleTo (a b : GoType) : Bool :=
  tyEq a b ||
    (match a, b with
     | .tint _, .tint _ => true
     | _, _ => false)

/-- Two's-complement wrap of an integer to a given bit width (Go integer
conversion semantics). -/
def wrapInt (bits : Nat) (v : Int) : Int :=
  let m : Int := 2 ^ bits
  let r := v % m
  if r ≥ 2 ^ (bits - 1) then r - m else r

/-- Model of `Value.Convert` for the convertible pairs of this grammar. -/
def convertVal (v : GoValue) (t : GoType) : GoValue :=
  match v, t with
  | .vint _ x, .tint b => .vint b (wrapInt b x)
  | _, _ => v

/-- Model of `strings.HasSuffix`. -/
def goHasSuffix (s suff : String) : Bool :=
  let n := s.data.length
  let m := suff.data.length
  decide (m ≤ n) && (s.data.drop (n - m) == suff.data)

/-- Model of `Value.String()`: the string itself for string values, a
non-empty placeholder of the form a T Value description otherwise. -/
def reflectString (v : GoValue) : String :=
  match v with
  | .vstr s => s
  | _ => "<Value>"

/-- Environment of behaviour external to this repository: the user code
behind the capability interfaces (`Scan`, `Value`, `String`, ordinary
methods found via `MethodByName`) and the `encoding/json` routines.

`scanImpl ty recv arg` is `(*ty).Scan(arg)` returning the updated receiver
(`none` is an error); `valueImpl` is `driver.Valuer.Value` (`none` is an
error); `stringImpl` is `fmt.Stringer.String`; `jsonMarshal` is
`json.Marshal` (`none` is an error); `jsonUnMapSS` / `jsonUnListS` are
`json.Unmarshal` into `map[string]string` / `[]string`; `getMethod ty name
canAddr` is the zero-argument single-result method `name` in the method
set of `ty` (pointer method set when `canAddr`); `setMethod ty name` is
the one-argument method `name` of the pointer method set, as a receiver
update together with its parameter type. -/
structure Env where
  scanImpl : String → GoValue → GoValue → Option GoValue
  valueImpl : String → GoValue → Option GoValue
  stringImpl : String → GoValue → String
  jsonMarshal : GoValue → Option String
  jsonUnMapSS : String → Option (List (String × String))
  jsonUnListS : String → Option (List String)
  getMethod : String → String → Bool → Option (GoValue → GoValue)
  setMethod : String → String → Option (GoType × (GoValue → GoValue → GoValue))

/-- Panic message of `reflect.Value.Set` with a value of the wrong type. -/
def panicWrongType : String := "reflect.Set: value of wrong type"

/-- Panic message of `reflect.Value.SetString` on a non-string value. -/
def panicSetString : String := "reflect: call of reflect.Value.SetString on non-string Value"

/-- Panic message of `FieldByName` on a non-struct or invalid value. -/
def panicFieldByName : String := "reflect: call of reflect.Value.FieldByName on non-struct Value"

/-- Panic message of promoted field access through a nil embedded pointer. -/
def panicNilEmbedded : String := "reflect: indirection through nil pointer to embedded struct"

/-- Panic message of an out-of-range field index (unreachable for
well-formed values). -/
def panicBadField : String := "reflect: field index out of range"

/-- Element type of a pointer or slice type (`Type.Elem()`). -/
def elemOfType : GoType → GoType
  | .tptr e => e
  | .tslice e => e
  | _ => .tinvalid

/-- One step of the source's `set` after the pointer prelude: either a
final result or the instruction to recurse on the dereferenced source
(the source's `return set(to, from.Elem())`). -/
inductive SetStep where
  | done (r : Except String (Bool × GoValue))
  | recurse

/-- The local `vstr` of the source's `set` (src/copier.go lines 208-217):
the JSON encoding of a non-nil map or slice source, empty otherwise (or
when `json.Marshal` fails). -/
def vstrOf (env : Env) (fromV : GoValue) (fromKind : GKind) : String :=
  if (fromKind == .kMap || fromKind == .kSlice) && !isNilV fromV then
    match env.jsonMarshal fromV with
    | some s => s
    | none => ""
  else ""

/-- The value of `vstr` after the nulls-convention rebinding inside the
scanner branch (src/copier.go lines 223-226): for a destination type whose
package path ends in nulls, an empty `vstr` for a non-container source is
replaced by `from.String()`. -/
def vstr2Of (env : Env) (fromV : GoValue) (fromKind : GKind) (toType : GoType) : String :=
  if goHasSuffix (pkgPathOf toType) "nulls" then
    (if vstrOf env fromV fromKind == "" && !(fromKind == .kMap || fromKind == .kSlice)
     then reflectString fromV else vstrOf env fromV fromKind)
  else vstrOf env fromV fromKind

/-- Body of the source's `set` after the pointer prelude (src/copier.go
lines 184-275): `toCur` is the (possibly rebound) destination,
`toKind`/`toType` the stale kind and type of the original slot, captured
by the source before the prelude rebinds `to = to.Elem()`.  The source's
locals `vstr` (and its rebinding) are the helper functions `vstrOf` and
`vstr2Of`. -/
def setBody (env : Env) (toCur : GoValue) (toKind : GKind) (toType : GoType)
    (fromV : GoValue) (fromKind : GKind) (fromAddr : Bool) : SetStep :=
  -- pbTimestamp on the destination address: leave protobuf conversions to consumers
  if (capsOf (typeOf toCur)).timestamp then .done (.ok (true, toCur))
  -- pbTimestamp on the source address
  else if fromAddr && (capsOf (typeOf fromV)).timestamp then .done (.ok (true, toCur))
  else if convertibleTo (typeOf fromV) toType then
    -- to.Set(from.Convert(toType)); panics when the converted value's
    -- type (the stale toType) differs from the rebound destination's type
    if tyEq toType (typeOf toCur) then .done (.ok (true, convertVal fromV toType))
    else .done (.error panicWrongType)
  else if (capsOf (typeOf toCur)).scanner then
    if goHasSuffix (pkgPathOf toType) "nulls"
        && decide ((vstr2Of env fromV fromKind toType).length < 1) then
      .done (.ok (true, toCur))
    else
      match env.scanImpl (structName (typeOf toCur)) toCur
          (if vstr2Of env fromV fromKind toType != ""
           then GoValue.vstr (vstr2Of env fromV fromKind toType) else fromV) with
      | none => .done (.ok (false, toCur))
      | some toCur2 => .done (.ok (true, toCur2))
  else if fromAddr && (capsOf (typeOf fromV)).valuer then
    match env.valueImpl (structName (typeOf fromV)) fromV with
    | none => .done (.ok (false, toCur))
    | some val =>
      match val with
      | .vstr s =>
        if toKind == .kString then
          -- to.SetString(s)
          if kindOfV toCur == .kString then .done (.ok (true, .vstr s))
          else .done (.error panicSetString)
        else if toKind == .kMap then
          match env.jsonUnMapSS s with
          | none => .done (.ok (false, toCur))
          | some ms =>
              -- to.Set(reflect.ValueOf(m)) with m a map[string]string
              if tyEq (typeOf toCur) (.tmap .tstring .tstring) then
                .done (.ok (true, .vmap .tstring .tstring false
                      (ms.map (fun kv => (GoValue.vstr kv.1, GoValue.vstr kv.2)))))
              else .done (.error panicWrongType)
        else if toKind == .kSlice then
          if kindOfT (elemOfType toType) == .kString then
            match env.jsonUnListS s with
            | none => .done (.ok (false, toCur))
            | some sl =>
                -- to.Set(reflect.ValueOf(sl)) with sl a []string
                if tyEq (typeOf toCur) (.tslice .tstring) then
                  .done (.ok (true, .vslice .tstring false (sl.map GoValue.vstr)))
                else .done (.error panicWrongType)
          else .done (.ok (true, toCur))
        else .done (.ok (true, toCur))
      | _ => .done (.ok (false, toCur))
  else if fromAddr && (capsOf (typeOf fromV)).stringer then
    -- to.SetString(stringer.String())
    if kindOfV toCur == .kString then
      .done (.ok (true, .vstr (env.stringImpl (structName (typeOf fromV)) fromV)))
    else .done (.error panicSetString)
  else if fromKind == .kPtr then .recurse
  else .done (.ok (false, toCur))

/-- Model of the source's `set(to, from)` (src/copier.go lines 167-276),
named `setVal` here.

`toV` is the destination slot (always settable at its call sites, hence
addressable), `fromV` the source value, `fromAddr` whether the source is
addressable (`from.CanAddr()`).  Returns `.ok (b, to2)` for a normal
boolean return together with the possibly written slot, `.error msg` for
a reflect panic.  The fall-through recursion `set(to, from.Elem())` of the
source is the `SetStep.recurse` arm: it re-enters `setVal` on the rebound
destination and the dereferenced source (which is always addressable; a
nil source pointer dereferences to the invalid value, for which `set`
returns true without writing). -/
def setVal (env : Env) (toV fromV : GoValue) (fromAddr : Bool) : Except String (Bool × GoValue) :=
  let fromKind := kindOfV fromV
  let toKind := kindOfV toV
  let toType := typeOf toV
  if isValid fromV = false then .ok (true, toV)
  else if toKind == .kPtr then
    -- set the slot to nil when the source is a nil pointer, else allocate the pointee if absent
    if fromKind == .kPtr && isNilV fromV then .ok (true, zeroValue toType)
    else
      let toMid :=
        if isNilV toV then
          match toType with
          | .tptr e => GoValue.vptr e (some (zeroValue e))
          | _ => toV
        else toV
      match toMid with
      | .vptr e (some pointee) =>
          (match setBody env pointee toKind toType fromV fromKind fromAddr with
           | .done (.error m) => .error m
           | .done (.ok (b, pointee2)) => .ok (b, GoValue.vptr e (some pointee2))
           | .recurse =>
               match fromV with
               | .vptr _ (some el) =>
                   (match setVal env pointee el true with
                    | .error m => .error m
                    | .ok (b, pointee2) => .ok (b, GoValue.vptr e (some pointee2)))
               | _ => .ok (true, GoValue.vptr e (some pointee)))
      | _ => .ok (false, toMid)
  else
    match setBody env toV toKind toType fromV fromKind fromAddr with
    | .done r => r
    | .recurse =>
        match fromV with
        | .vptr _ (some el) => setVal env toV el true
        | _ => .ok (true, toV)

mutual

/-- Size measure on types (fuel bound for the promoted-field search). -/
def sizeT : GoType → Nat
  | .tinvalid => 1
  | .tint _ => 1
  | .tstring => 1
  | .tptr e => 1 + sizeT e
  | .tslice e => 1 + sizeT e
  | .tmap k v => 1 + sizeT k + sizeT v
  | .tstruct _ _ _ fs => 1 + sizeTL fs

/-- Size measure on field declaration lists. -/
def sizeTL : List FieldT → Nat
  | [] => 0
  | (_, t, _) :: r => 1 + sizeT t + sizeTL r

end

theorem sizeT_indirectType_le : ∀ t, sizeT (indirectType t) ≤ sizeT t
  | .tinvalid => le_refl _
  | .tint _ => le_refl _
  | .tstring => le_refl _
  | .tptr e => by
      have := sizeT_indirectType_le e
      simp only [indirectType, sizeT]; omega
  | .tslice e => by
      have := sizeT_indirectType_le e
      simp only [indirectType, sizeT]; omega
  | .tmap _ _ => le_refl _
  | .tstruct _ _ _ _ => le_refl _

/-- Fueled worker of `deepFields`: flatten a field declaration list,
inlining fields of anonymous (embedded) sub-structs recursively, in
declaration order.  One unit of fuel is consumed per recursive step, so
fuel `sizeTL fs` always suffices (each descent moves to a strictly
smaller declaration list). -/
def deepFieldsF : Nat → List FieldT → List FieldT
  | 0, _ => []
  | _ + 1, [] => []
  | fuel + 1, (n, ft, anon) :: r =>
      (if anon then
         (match indirectType ft with
          | .tstruct _ _ _ fs => deepFieldsF fuel fs
          | _ => [])
       else [(n, ft, anon)]) ++ deepFieldsF fuel r

/-- Model of the source's `deepFields` (src/copier.go lines 136-151): the
flattened field descriptor list of a struct type. -/
def deepFields (reflectType : GoType) : List FieldT :=
  match indirectType reflectType with
  | .tstruct _ _ _ fs => deepFieldsF (sizeTL fs) fs
  | _ => []

/-- A promoted-field access path: struct field indices from the outermost
struct inwards (embedded pointers are dereferenced between steps). -/
abbrev FPath := List Nat

/-- Strip pointer layers of a type (embedded `*T` promotes the fields of
`T`). -/
def stripPtr : GoType → GoType
  | .tptr t => stripPtr t
  | t => t

/-- Matches of `name` among the direct fields of one frontier entry; each
match extends the entry's path by the field index. -/
def matchesIn (fs : List FieldT) (name : String) (p : FPath) (i : Nat) : List FPath :=
  match fs with
  | [] => []
  | (n, _, _) :: r =>
      (if n == name then [p ++ [i]] else []) ++ matchesIn r name p (i + 1)

/-- All matches of `name` at the current search depth. -/
def levelMatches : List (FPath × GoType) → String → List FPath
  | [], _ => []
  | (p, .tstruct _ _ _ fs) :: r, name => matchesIn fs name p 0 ++ levelMatches r name
  | _ :: r, name => levelMatches r name

/-- Anonymous fields of one frontier entry, as the next depth's entries. -/
def expandIn (fs : List FieldT) (p : FPath) (i : Nat) : List (FPath × GoType) :=
  match fs with
  | [] => []
  | (_, t, anon) :: r =>
      (if anon then [(p ++ [i], stripPtr t)] else []) ++ expandIn r p (i + 1)

/-- The next depth's search frontier. -/
def levelNext : List (FPath × GoType) → List (FPath × GoType)
  | [] => []
  | (p, .tstruct _ _ _ fs) :: r => expandIn fs p 0 ++ levelNext r
  | _ :: r => levelNext r

/-- Breadth-first promoted-field search, as `reflect`'s `FieldByName`
performs it: at the shallowest depth with matches, a unique match is
returned and multiple matches are ambiguous (no field). -/
def bfsField : Nat → List (FPath × GoType) → String → Option FPath
  | 0, _, _ => none
  | _ + 1, [], _ => none
  | fuel + 1, frontier, name =>
      match levelMatches frontier name with
      | [p] => some p
      | [] => bfsField fuel (levelNext frontier) name
      | _ => none

/-- Model of `Type.FieldByName` resolution: the access path of `name` in
`t`, or `none` when the name is absent or ambiguous. -/
def fieldPath (t : GoType) (name : String) : Option FPath :=
  bfsField (sizeT t) [([], t)] name

/-- Dereference the pointer layers in front of a promoted field access; a
nil embedded pointer is a reflect panic. -/
def derefEmbedded : GoValue → Except String GoValue
  | .vptr _ (some p) => derefEmbedded p
  | .vptr _ none => .error panicNilEmbedded
  | v => .ok v

/-- Read the field value at `path`. -/
def getAtPath (v : GoValue) : FPath → Except String GoValue
  | [] => .ok v
  | i :: rest =>
      match derefEmbedded v with
      | .error m => .error m
      | .ok (.vstruct _ _ _ _ vals) =>
          match vals.get? i with
          | some fv => getAtPath fv rest
          | none => .error panicBadField
      | .ok _ => .error panicFieldByName

/-- Write the field value at `path`, preserving the pointer spines walked
on the way. -/
def setAtPath (v : GoValue) : FPath → GoValue → Except String GoValue
  | [], x => .ok x
  | i :: rest, x =>
      match derefEmbedded v with
      | .error m => .error m
      | .ok (.vstruct n p c fs vals) =>
          match vals.get? i with
          | some fv =>
              (match setAtPath fv rest x with
               | .error m => .error m
               | .ok fv2 => .ok (putBack v (.vstruct n p c fs (vals.set i fv2))))
          | none => .error panicBadField
      | .ok _ => .error panicFieldByName

/-- Model of `v.FieldByName(name)`: panics on a non-struct value, yields
nothing when the name is absent or ambiguous, else the access path and the
field value. -/
def fieldByName (v : GoValue) (name : String) : Except String (Option (FPath × GoValue)) :=
  if kindOfV v == .kStruct then
    match fieldPath (typeOf v) name with
    | none => .ok none
    | some p =>
        match getAtPath v p with
        | .error m => .error m
        | .ok x => .ok (some (p, x))
  else .error panicFieldByName

/-- The i-th element of a slice value. -/
def elemAt (v : GoValue) (i : Nat) : GoValue :=
  match v with
  | .vslice _ _ es =>
      (match es.get? i with
       | some e => e
       | none => .invalid)
  | _ => .invalid

/-- Replace the i-th element of a slice value. -/
def setElemAt (v : GoValue) (i : Nat) (x : GoValue) : GoValue :=
  match v with
  | .vslice t nil es => .vslice t nil (es.set i x)
  | v => v

/-- Model of `reflect.Append` (append on a nil slice yields a non-nil
slice). -/
def appendV (v : GoValue) (x : GoValue) : GoValue :=
  match v with
  | .vslice t _ es => .vslice t false (es ++ [x])
  | v => v

/-- Outcome of `Copy`: a normal return with the error value and the final
destination and source argument values, a reflect panic, or fuel
exhaustion of the model. -/
inductive COut where
  | ok (err : Option String) (toV fromV : GoValue)
  | panic (msg : String)
  | oof
  deriving Repr

/-- Outcome of a per-element pass: the updated destination and source, a
propagated error, a panic, or fuel exhaustion. -/
inductive PassOut where
  | ok (dest source : GoValue)
  | fail (msg : String) (dest source : GoValue)
  | panic (msg : String)
  | oof
  deriving Repr

/-- Error message of `Copy` on an unaddressable destination
(src/copier.go line 28). -/
def unaddressableMsg : String := "copy to value is unaddressable"

/-- Model of the method pass (src/copier.go lines 104-123): for each
flattened destination field name, look for a zero-argument single-result
method of that name on the source and best-effort `setVal` (the source's `set`) its result into
the matching destination field. -/
def methodPass (env : Env) (fields : List FieldT) (dest source : GoValue)
    (srcAddr : Bool) : Except String GoValue :=
  match fields with
  | [] => .ok dest
  | (name, _, _) :: rest =>
      match env.getMethod (structName (typeOf source)) name srcAddr with
      | none => methodPass env rest dest source srcAddr
      | some g =>
          match fieldByName dest name with
          | .error m => .error m
          | .ok none => methodPass env rest dest source srcAddr
          | .ok (some (dp, toField)) =>
              -- toField.IsValid() && toField.CanSet(): dest is addressable
              -- and the model's fields are exported
              match setVal env toField (g source) false with
              | .error m => .error m
              | .ok (_, tf2) =>
                  match setAtPath dest dp tf2 with
                  | .error m => .error m
                  | .ok dest2 => methodPass env rest dest2 source srcAddr

/-- The field pass of `Copy` (src/copier.go lines 74-102): for each
flattened source field, apply `setVal` into the same-named destination
field; on a `false` return recurse `Copy` (the `rec` parameter, the copy
function at the remaining fuel) on the field's address; with no
same-named destination field, try a single-parameter method of that name
on the destination's address. -/
def fieldPass (rec : Env → GoValue → GoValue → COut) (env : Env) (fields : List FieldT)
    (dest source : GoValue) (srcAddr : Bool) : PassOut :=
  match fields with
  | [] => .ok dest source
  | (name, _, _) :: rest =>
    match fieldByName source name with
    | .error m => .panic m
    | .ok none => fieldPass rec env rest dest source srcAddr
    | .ok (some (sp, fromField)) =>
      match fieldByName dest name with
      | .error m => .panic m
      | .ok (some (dp, toField)) =>
          -- toField.CanSet(): dest is addressable, fields are exported
          match setVal env toField fromField srcAddr with
          | .error m => .panic m
          | .ok (true, tf2) =>
              (match setAtPath dest dp tf2 with
               | .error m => .panic m
               | .ok dest2 => fieldPass rec env rest dest2 source srcAddr)
          | .ok (false, tf2) =>
              (match setAtPath dest dp tf2 with
               | .error m => .panic m
               | .ok dest2 =>
                 -- Copy(toField.Addr().Interface(), fromField.Interface())
                 match rec env (GoValue.vptr (typeOf tf2) (some tf2)) fromField with
                 | .panic m => .panic m
                 | .oof => .oof
                 | .ok err toA fromA =>
                   let tf3 :=
                     match toA with
                     | .vptr _ (some x) => x
                     | _ => tf2
                   match setAtPath dest2 dp tf3 with
                   | .error m => .panic m
                   | .ok dest3 =>
                     match setAtPath source sp fromA with
                     | .error m => .panic m
                     | .ok source2 =>
                       match err with
                       | some e => .fail e dest3 source2
                       | none => fieldPass rec env rest dest3 source2 srcAddr)
      | .ok none =>
          -- try to set to a single-parameter method on dest's address
          match env.setMethod (structName (typeOf dest)) name with
          | some (pty, m) =>
              if assignableTo (typeOf fromField) pty then
                fieldPass rec env rest (m dest fromField) source srcAddr
              else fieldPass rec env rest dest source srcAddr
          | none => fieldPass rec env rest dest source srcAddr

/-- The replication loop of `Copy` (src/copier.go lines 56-132): `cnt`
iterations remain, `idx` is the current index; `rec` is the copy function
used by the field pass's structural fallback. -/
def iterCopy (rec : Env → GoValue → GoValue → COut) (env : Env) (isSlice : Bool)
    (cnt : Nat) (idx : Nat) (toType fromType : GoType) (toV fromV : GoValue)
    (srcAddr0 : Bool) : PassOut :=
  match cnt with
  | 0 => .ok toV fromV
  | c + 1 =>
    let fromIsSlice := kindOfV fromV == .kSlice
    let elemOrig := if isSlice && fromIsSlice then elemAt fromV idx else fromV
    let source := indirect elemOrig
    -- slice elements are addressable; otherwise source addressability is
    -- that of the indirected from argument
    let srcAddr := if isSlice && fromIsSlice then isValid source else srcAddr0
    let dest := if isSlice then indirect (zeroValue toType) else indirect toV
    match fieldPass rec env (deepFields fromType) dest source srcAddr with
    | .panic m => .panic m
    | .oof => .oof
    | .fail m dest2 source2 =>
        let toV2 := if isSlice then toV else dest2
        let fromV2 := if isSlice && fromIsSlice then setElemAt fromV idx (putBack elemOrig source2)
                      else putBack fromV source2
        .fail m toV2 fromV2
    | .ok dest2 source2 =>
        match methodPass env (deepFields toType) dest2 source2 srcAddr with
        | .error m => .panic m
        | .ok dest3 =>
            let toV2 :=
              if isSlice then
                match typeOf toV with
                | .tslice elemT =>
                    if assignableTo (.tptr (typeOf dest3)) elemT then
                      appendV toV (.vptr (typeOf dest3) (some dest3))
                    else if assignableTo (typeOf dest3) elemT then appendV toV dest3
                    else toV
                | _ => toV
              else dest3
            let fromV2 := if isSlice && fromIsSlice then setElemAt fromV idx (putBack elemOrig source2)
                          else putBack fromV source2
            iterCopy rec env isSlice c (idx + 1) toType fromType toV2 fromV2 srcAddr0

/-- Fueled model of the source's `Copy` (src/copier.go lines 19-134).
`toValue` and `fromValue` are the two interface arguments.  The result
carries the returned error and the final values of both arguments (the
source argument is threaded through every step so that the frame theorem
about it is a statement about the definition).  One unit of fuel is
consumed per recursive `Copy` level. -/
def copyFuel : Nat → Env → GoValue → GoValue → COut
  | 0, _, _, _ => .oof
  | fuel + 1, env, toValue, fromValue =>
    let fromV := indirect fromValue
    let toV := indirect toValue
    if !canAddrIndirect toValue then .ok (some unaddressableMsg) toValue fromValue
    -- return if from value is invalid
    else if isValid fromV = false then .ok none toValue fromValue
    -- just set it if possible to assign
    else if assignableTo (typeOf fromV) (typeOf toV) then
      .ok none (putBack toValue fromV) fromValue
    else
      let fromType := indirectType (typeOf fromV)
      let toType := indirectType (typeOf toV)
      if !(kindOfT fromType == .kStruct) || !(kindOfT toType == .kStruct) then
        .ok none toValue fromValue
      else
        let isSlice := kindOfV toV == .kSlice
        let amount := if isSlice then (if kindOfV fromV == .kSlice then lenV fromV else 1) else 1
        let srcAddr := canAddrIndirect fromValue
        match iterCopy (copyFuel fuel) env isSlice amount 0 toType fromType toV fromV srcAddr with
        | .ok t f => .ok none (putBack toValue t) (putBack fromValue f)
        | .fail m t f => .ok (some m) (putBack toValue t) (putBack fromValue f)
        | .panic m => .panic m
        | .oof => .oof

/-- The public `Copy`: fuel `sizeV fromValue + 1` (shown sufficient by the
termination theorem). -/
def Copy (env : Env) (toValue fromValue : GoValue) : COut :=
  copyFuel (sizeV fromValue + 1) env toValue fromValue

/-- The inert environment: no interface implementations, no methods, no
JSON behaviour. -/
def env0 : Env where
  scanImpl := fun _ _ _ => none
  valueImpl := fun _ _ => none
  stringImpl := fun _ _ => ""
  jsonMarshal := fun _ => none
  jsonUnMapSS := fun _ => none
  jsonUnListS := fun _ => none
  getMethod := fun _ _ _ => none
  setMethod := fun _ _ => none

/-- Whether a `Copy` outcome is a normal return or a panic (everything but
fuel exhaustion of the model). -/
def notOof : COut → Bool
  | .oof => false
  | _ => true

/-- The source component of a pass outcome (with a default for the arms
that do not carry one). -/
def passSource (p : PassOut) (dflt : GoValue) : GoValue :=
  match p with
  | .ok _ s => s
  | .fail _ _ s => s
  | _ => dflt

-- ── Concrete scenario types and values used in the claim theorems ──

def noCaps : Caps := ⟨false, false, false, false⟩

def scanCaps : Caps := ⟨false, true, false, false⟩

def strCaps : Caps := ⟨false, false, false, true⟩

def tsCaps : Caps := ⟨true, false, false, false⟩

/-- A protobuf `Timestamp`-like named struct (its pointer method set
satisfies `pbTimestamp`). -/
def tTimestamp : GoType :=
  .tstruct "Timestamp" "github.com/golang/protobuf/ptypes/timestamp" tsCaps
    [("Seconds", .tint 64, false), ("Nanos", .tint 32, false)]

/-- A `nulls.String`-like named struct: implements `sql.Scanner` through
its pointer method set, package path ends in nulls. -/
def tNulls : GoType :=
  .tstruct "String" "github.com/gobuffalo/nulls" scanCaps
    [("String", .tstring, false), ("Valid", .tint 8, false)]

def mkNullsVal (s : String) (b : Int) : GoValue :=
  .vstruct "String" "github.com/gobuffalo/nulls" scanCaps
    [("String", .tstring, false), ("Valid", .tint 8, false)] [.vstr s, .vint 8 b]

/-- Destination struct with one `tNulls` field `F`. -/
def tDB : GoType := .tstruct "DB" "main" noCaps [("F", tNulls, false)]

def mkDB (w : GoValue) : GoValue :=
  .vstruct "DB" "main" noCaps [("F", tNulls, false)] [w]

/-- Source struct whose field `F` is an empty string. -/
def srcSA : GoValue := .vstruct "SA" "main" noCaps [("F", .tstring, false)] [.vstr ""]

/-- Source element type for the slice-copy scenario: one int64 field `A`. -/
def tSrcE : GoType := .tstruct "SrcE" "main" noCaps [("A", .tint 64, false)]

/-- Destination element type: same field name at int32 (structurally
compatible but distinct, so the element pass converts field-by-field). -/
def tDstE : GoType := .tstruct "DstE" "main" noCaps [("A", .tint 32, false)]

def mkSrcE (a : Int) : GoValue :=
  .vstruct "SrcE" "main" noCaps [("A", .tint 64, false)] [.vint 64 a]

def mkDstE (a : Int) : GoValue :=
  .vstruct "DstE" "main" noCaps [("A", .tint 32, false)] [.vint 32 a]

/-- Embedded types for the promoted-field scenarios: `A` and `B` both
declare a field `X`. -/
def tA : GoType := .tstruct "A" "main" noCaps [("X", .tint 64, false)]

def tB : GoType := .tstruct "B" "main" noCaps [("X", .tstring, false)]

/-- Destination embedding only `A`: `X` is unambiguously promoted. -/
def tD1 : GoType := .tstruct "D1" "main" noCaps [("A", tA, true)]

/-- Destination embedding both `A` and `B`: `X` is promoted ambiguously. -/
def tD2 : GoType := .tstruct "D" "main" noCaps [("A", tA, true), ("B", tB, true)]

/-- Source with a plain field `X`. -/
def srcS2 : GoValue := .vstruct "S" "main" noCaps [("X", .tint 64, false)] [.vint 64 5]

/-- Destination whose field `P` is a pointer to pointer to int64: the
recursive `Copy` fallback on `P` hits the unaddressable check. -/
def tD3 : GoType := .tstruct "D3" "main" noCaps [("P", .tptr (.tptr (.tint 64)), false)]

/-- Source with an int64 field `P` (not convertible to `**int64`, so `set`
fails and `Copy` recurses on the field). -/
def srcS3 : GoValue := .vstruct "S3" "main" noCaps [("P", .tint 64, false)] [.vint 64 7]

/-- A source value whose named struct type has a `String() string` method
on its pointer method set (an `fmt.Stringer`). -/
def strSrcVal : GoValue :=
  .vstruct "StrSrc" "main" strCaps [("A", .tint 64, false)] [.vint 64 1]

theorem sizeV_pos : ∀ v, 1 ≤ sizeV v
  | .invalid => le_refl _
  | .vint _ _ => le_refl _
  | .vstr _ => le_refl _
  | .vptr _ _ => by simp [sizeV]
  | .vslice _ _ _ => by simp [sizeV]
  | .vmap _ _ _ _ => by simp [sizeV]
  | .vstruct _ _ _ _ _ => by simp [sizeV]

theorem sizeV_indirect_le : ∀ v, sizeV (indirect v) ≤ sizeV v
  | .invalid => le_refl _
  | .vint _ _ => le_refl _
  | .vstr _ => le_refl _
  | .vptr t (some p) => by
      have := sizeV_indirect_le p
      simp only [indirect, sizeV, sizeO]
      omega
  | .vptr t none => by simp [indirect, sizeV, sizeO]
  | .vslice _ _ _ => le_refl _
  | .vmap _ _ _ _ => le_refl _
  | .vstruct _ _ _ _ _ => le_refl _

theorem sizeL_get? : ∀ (l : List GoValue) (i : Nat) (x : GoValue),
    l.get? i = some x → sizeV x ≤ sizeL l
  | [], _, x => fun h => Option.noConfusion h
  | v :: r, 0, x => fun h => by
      have h2 : some v = some x := h
      cases h2
      simp [sizeL]
      omega
  | v :: r, i + 1, x => fun h => by
      have := sizeL_get? r i x h
      simp [sizeL]
      omega

theorem sizeV_derefEmbedded_le : ∀ v w, derefEmbedded v = .ok w → sizeV w ≤ sizeV v
  | .invalid, w => by intro h; cases h; exact le_refl _
  | .vint _ _, w => by intro h; cases h; exact le_refl _
  | .vstr _, w => by intro h; cases h; exact le_refl _
  | .vptr t (some p), w => by
      intro h
      simp only [derefEmbedded] at h
      have := sizeV_derefEmbedded_le p w h
      simp [sizeV, sizeO]
      omega
  | .vptr t none, w => by intro h; cases h
  | .vslice _ _ _, w => by intro h; cases h; exact le_refl _
  | .vmap _ _ _ _, w => by intro h; cases h; exact le_refl _
  | .vstruct _ _ _ _ _, w => by intro h; cases h; exact le_refl _

theorem getAtPath_size_lt : ∀ (p : FPath) (v x : GoValue),
    getAtPath v p = .ok x → p ≠ [] → sizeV x < sizeV v := by
  intro p
  induction p with
  | nil => intro v x _ hne; exact absurd rfl hne
  | cons i rest ih =>
    intro v x h _
    unfold getAtPath at h
    split at h
    · exact absurd h (by simp)
    · rename_i heq
      split at h
      · rename_i fv hg
        have hwle := sizeV_derefEmbedded_le v _ heq
        have hfv := sizeL_get? _ i fv hg
        simp only [sizeV] at hwle
        cases rest with
        | nil =>
            have h2 : Except.ok fv = (Except.ok x : Except String GoValue) := h
            cases h2
            omega
        | cons j r2 =>
            have hx := ih fv x h (by simp)
            omega
      · exact absurd h (by simp)
    · exact absurd h (by simp)

theorem matchesIn_ne_nil : ∀ (fs : List FieldT) (name : String) (p : FPath) (i : Nat) (q : FPath),
    q ∈ matchesIn fs name p i → q ≠ []
  | [], _, _, _, _ => by intro h; simp [matchesIn] at h
  | (n, t, a) :: r, name, p, i, q => by
      intro h
      simp only [matchesIn, List.mem_append] at h
      cases h with
      | inl h1 =>
          by_cases hb : (n == name) = true
          · rw [if_pos hb, List.mem_singleton] at h1
            subst h1
            simp
          · rw [if_neg hb] at h1
            simp at h1
      | inr h2 => exact matchesIn_ne_nil r name p (i + 1) q h2

theorem levelMatches_ne_nil : ∀ (fr : List (FPath × GoType)) (name : String) (q : FPath),
    q ∈ levelMatches fr name → q ≠ []
  | [], _, _ => by intro h; simp [levelMatches] at h
  | (p, .tstruct n pk c fs) :: r, name, q => by
      intro h
      simp only [levelMatches, List.mem_append] at h
      cases h with
      | inl h1 => exact matchesIn_ne_nil fs name p 0 q h1
      | inr h2 => exact levelMatches_ne_nil r name q h2
  | (p, .tinvalid) :: r, name, q => fun h => levelMatches_ne_nil r name q h
  | (p, .tint _) :: r, name, q => fun h => levelMatches_ne_nil r name q h
  | (p, .tstring) :: r, name, q => fun h => levelMatches_ne_nil r name q h
  | (p, .tptr _) :: r, name, q => fun h => levelMatches_ne_nil r name q h
  | (p, .tslice _) :: r, name, q => fun h => levelMatches_ne_nil r name q h
  | (p, .tmap _ _) :: r, name, q => fun h => levelMatches_ne_nil r name q h

theorem bfsField_ne_nil : ∀ (fuel : Nat) (fr : List (FPath × GoType)) (name : String) (p : FPath),
    bfsField fuel fr name = some p → p ≠ []
  | 0, _, _, _ => by intro h; cases h
  | fuel + 1, [], _, _ => by intro h; cases h
  | fuel + 1, e :: fr, name, p => by
      intro h
      have hfr : (e :: fr).isEmpty = false := rfl
      unfold bfsField at h
      split at h
      · rename_i q hq
        cases h
        exact levelMatches_ne_nil _ name p (hq ▸ List.mem_singleton.mpr rfl)
      · exact bfsField_ne_nil fuel _ name p h
      · cases h

theorem fieldPath_ne_nil (t : GoType) (name : String) (p : FPath)
    (h : fieldPath t name = some p) : p ≠ [] :=
  bfsField_ne_nil _ _ _ _ h

theorem fieldByName_getAtPath (v : GoValue) (name : String) (p : FPath) (x : GoValue)
    (h : fieldByName v name = .ok (some (p, x))) :
    fieldPath (typeOf v) name = some p ∧ getAtPath v p = .ok x := by
  unfold fieldByName at h
  split at h
  · split at h
    · cases h
    · rename_i q hq
      split at h
      · cases h
      · rename_i y hy
        cases h
        exact ⟨hq, hy⟩
  · cases h

theorem fieldByName_size_lt (v : GoValue) (name : String) (p : FPath) (x : GoValue)
    (h : fieldByName v name = .ok (some (p, x))) : sizeV x < sizeV v := by
  obtain ⟨hp, hg⟩ := fieldByName_getAtPath v name p x h
  exact getAtPath_size_lt p v x hg (fieldPath_ne_nil _ _ _ hp)

theorem putBack_indirect : ∀ v, putBack v (indirect v) = v
  | .invalid => rfl
  | .vint _ _ => rfl
  | .vstr _ => rfl
  | .vptr t (some p) => by
      simp only [indirect, putBack, putBack_indirect p]
  | .vptr t none => rfl
  | .vslice _ _ _ => rfl
  | .vmap _ _ _ _ => rfl
  | .vstruct _ _ _ _ _ => rfl

theorem putBack_derefEmbedded : ∀ v w, derefEmbedded v = .ok w → putBack v w = v
  | .invalid, w => by intro h; cases h; rfl
  | .vint _ _, w => by intro h; cases h; rfl
  | .vstr _, w => by intro h; cases h; rfl
  | .vptr t (some p), w => by
      intro h
      simp only [derefEmbedded] at h
      simp only [putBack, putBack_derefEmbedded p w h]
  | .vptr t none, w => by intro h; cases h
  | .vslice _ _ _, w => by intro h; cases h; rfl
  | .vmap _ _ _ _, w => by intro h; cases h; rfl
  | .vstruct _ _ _ _ _, w => by intro h; cases h; rfl

theorem list_set_get? {α : Type} : ∀ (l : List α) (i : Nat) (x : α),
    l.get? i = some x → l.set i x = l
  | [], _, _ => fun h => Option.noConfusion h
  | a :: r, 0, x => fun h => by
      have h2 : some a = some x := h
      cases h2
      rfl
  | a :: r, i + 1, x => fun h => by
      have := list_set_get? r i x h
      simp [List.set, this]

theorem list_set_get?_none {α : Type} : ∀ (l : List α) (i : Nat) (x : α),
    l.get? i = none → l.set i x = l
  | [], _, _ => fun _ => rfl
  | a :: r, 0, x => fun h => Option.noConfusion h
  | a :: r, i + 1, x => fun h => by
      have := list_set_get?_none r i x h
      simp [List.set, this]

theorem setAtPath_getAtPath : ∀ (p : FPath) (v x : GoValue),
    getAtPath v p = .ok x → setAtPath v p x = .ok v := by
  intro p
  induction p with
  | nil =>
      intro v x h
      have h2 : (Except.ok v : Except String GoValue) = .ok x := h
      cases h2
      rfl
  | cons i rest ih =>
      intro v x h
      unfold getAtPath at h
      split at h
      · exact absurd h (by simp)
      · rename_i heq
        split at h
        · rename_i fv hg
          simp only [setAtPath, heq, hg, ih _ _ h, list_set_get? _ i fv hg,
            putBack_derefEmbedded v _ heq]
        · exact absurd h (by simp)
      · exact absurd h (by simp)

theorem setElemAt_elemAt : ∀ (v : GoValue) (i : Nat), setElemAt v i (elemAt v i) = v
  | .invalid, _ => rfl
  | .vint _ _, _ => rfl
  | .vstr _, _ => rfl
  | .vptr _ _, _ => rfl
  | .vslice t nl es, i => by
      simp only [elemAt, setElemAt]
      cases hg : es.get? i with
      | some e => simp [list_set_get? es i e hg]
      | none => simp [list_set_get?_none es i GoValue.invalid hg]
  | .vmap _ _ _ _, _ => rfl
  | .vstruct _ _ _ _ _, _ => rfl

theorem indirect_not_ptr : ∀ v, kindOfV v ≠ .kPtr → indirect v = v
  | .invalid, _ => rfl
  | .vint _ _, _ => rfl
  | .vstr _, _ => rfl
  | .vptr _ _, h => absurd rfl h
  | .vslice _ _ _, _ => rfl
  | .vmap _ _ _ _, _ => rfl
  | .vstruct _ _ _ _ _, _ => rfl

theorem kindOfT_string_eq : ∀ t, kindOfT t = .kString → t = .tstring
  | .tinvalid, h => by cases h
  | .tint _, h => by cases h
  | .tstring, _ => rfl
  | .tptr _, h => by cases h
  | .tslice _, h => by cases h
  | .tmap _ _, h => by cases h
  | .tstruct _ _ _ _, h => by cases h

theorem indirect_idem : ∀ v, indirect (indirect v) = indirect v
  | .invalid => rfl
  | .vint _ _ => rfl
  | .vstr _ => rfl
  | .vptr t (some p) => by simp only [indirect, indirect_idem p]
  | .vptr t none => rfl
  | .vslice _ _ _ => rfl
  | .vmap _ _ _ _ => rfl
  | .vstruct _ _ _ _ _ => rfl

theorem fieldPass_src (rec : Env → GoValue → GoValue → COut) (env : Env)
    (hrec : ∀ t f e t2 f2, rec env t f = .ok e t2 f2 → f2 = f) :
    ∀ (fields : List FieldT) (dest source : GoValue) (srcAddr : Bool),
      passSource (fieldPass rec env fields dest source srcAddr) source = source := by
  intro fields
  induction fields with
  | nil => intro dest source sa; rfl
  | cons fd rest ih =>
      intro dest source sa
      obtain ⟨name, fty, fanon⟩ := fd
      unfold fieldPass
      split
      · rfl
      · exact ih _ _ _
      · rename_i sp fromField hfb1
        split
        · rfl
        · rename_i dp toField hfb2
          split
          · rfl
          · rename_i tf2 hsv
            split
            · rfl
            · exact ih _ _ _
          · rename_i tf2 hsv
            split
            · rfl
            · rename_i dest2 hsp1
              split
              · rfl
              · rfl
              · rename_i err toA fromA hrc
                have hfa : fromA = fromField := hrec _ _ _ _ _ hrc
                rw [hfa]
                have hget := (fieldByName_getAtPath source name sp fromField hfb1).2
                have hid := setAtPath_getAtPath sp source fromField hget
                rw [hid]
                dsimp only
                repeat' split
                all_goals first | rfl | exact ih _ _ _
        · split
          · split
            · exact ih _ _ _
            · exact ih _ _ _
          · exact ih _ _ _

theorem fieldPass_src_fail (rec : Env → GoValue → GoValue → COut) (env : Env)
    (hrec : ∀ t f e t2 f2, rec env t f = .ok e t2 f2 → f2 = f)
    {fields : List FieldT} {dest source : GoValue} {sa : Bool} {m : String} {d s : GoValue}
    (h : fieldPass rec env fields dest source sa = .fail m d s) : s = source := by
  have hq := fieldPass_src rec env hrec fields dest source sa
  rw [h] at hq
  simpa [passSource] using hq

theorem fieldPass_src_ok (rec : Env → GoValue → GoValue → COut) (env : Env)
    (hrec : ∀ t f e t2 f2, rec env t f = .ok e t2 f2 → f2 = f)
    {fields : List FieldT} {dest source : GoValue} {sa : Bool} {d s : GoValue}
    (h : fieldPass rec env fields dest source sa = .ok d s) : s = source := by
  have hq := fieldPass_src rec env hrec fields dest source sa
  rw [h] at hq
  simpa [passSource] using hq

theorem iterCopy_src (rec : Env → GoValue → GoValue → COut) (env : Env)
    (hrec : ∀ t f e t2 f2, rec env t f = .ok e t2 f2 → f2 = f) :
    ∀ (cnt idx : Nat) (isSlice : Bool) (toT fromT : GoType) (toV fromV : GoValue) (sa0 : Bool),
      passSource (iterCopy rec env isSlice cnt idx toT fromT toV fromV sa0) fromV = fromV := by
  intro cnt
  induction cnt with
  | zero => intro idx isSlice toT fromT toV fromV sa0; rfl
  | succ c ihc =>
    intro idx isSlice toT fromT toV fromV sa0
    unfold iterCopy
    by_cases h1 : isSlice = true <;> by_cases h2 : (kindOfV fromV == GKind.kSlice) = true <;>
      simp only [Bool.not_eq_true] at h1 h2 <;>
      simp only [h1, h2, Bool.true_and, Bool.false_and, Bool.and_true, Bool.and_false,
        Bool.false_eq_true, Bool.true_eq_false, if_true, if_false, ite_false, ite_true] <;>
      (split
       · rfl
       · rfl
       · rename_i m d2 s2 hfp
         have hq := fieldPass_src_fail rec env hrec hfp
         simp only [passSource]
         first
         | rw [hq, putBack_indirect, setElemAt_elemAt]
         | rw [hq, putBack_indirect]
       · rename_i d2 s2 hfp
         split
         · rfl
         · rename_i dest3 hmp
           have hq := fieldPass_src_ok rec env hrec hfp
           first
           | (rw [hq, putBack_indirect, setElemAt_elemAt]; apply ihc)
           | (rw [hq, putBack_indirect]; apply ihc))

theorem iterCopy_src_ok (rec : Env → GoValue → GoValue → COut) (env : Env)
    (hrec : ∀ t f e t2 f2, rec env t f = .ok e t2 f2 → f2 = f)
    {cnt idx : Nat} {isSlice : Bool} {toT fromT : GoType} {toV fromV : GoValue} {sa0 : Bool}
    {d s : GoValue}
    (h : iterCopy rec env isSlice cnt idx toT fromT toV fromV sa0 = .ok d s) : s = fromV := by
  have hq := iterCopy_src rec env hrec cnt idx isSlice toT fromT toV fromV sa0
  rw [h] at hq
  simpa [passSource] using hq

theorem iterCopy_src_fail (rec : Env → GoValue → GoValue → COut) (env : Env)
    (hrec : ∀ t f e t2 f2, rec env t f = .ok e t2 f2 → f2 = f)
    {cnt idx : Nat} {isSlice : Bool} {toT fromT : GoType} {toV fromV : GoValue} {sa0 : Bool}
    {m : String} {d s : GoValue}
    (h : iterCopy rec env isSlice cnt idx toT fromT toV fromV sa0 = .fail m d s) : s = fromV := by
  have hq := iterCopy_src rec env hrec cnt idx isSlice toT fromT toV fromV sa0
  rw [h] at hq
  simpa [passSource] using hq

theorem copyFuel_src : ∀ (fuel : Nat) (env : Env) (toValue fromValue : GoValue)
    (e : Option String) (t f : GoValue),
    copyFuel fuel env toValue fromValue = .ok e t f → f = fromValue := by
  intro fuel
  induction fuel with
  | zero => intro env toV fromV e t f h; cases h
  | succ n ih =>
    intro env toV fromV e t f h
    have hrec : ∀ a b c d2 e2, copyFuel n env a b = .ok c d2 e2 → e2 = b :=
      fun a b c d2 e2 hh => ih env a b c d2 e2 hh
    unfold copyFuel at h
    dsimp only at h
    split at h
    · cases h; rfl
    · split at h
      · cases h; rfl
      · split at h
        · cases h; rfl
        · split at h
          · cases h; rfl
          · split at h
            · rename_i t2 f2 hit
              cases h
              rw [iterCopy_src_ok (copyFuel n) env hrec hit, putBack_indirect]
            · rename_i m t2 f2 hit
              cases h
              rw [iterCopy_src_fail (copyFuel n) env hrec hit, putBack_indirect]
            · cases h
            · cases h

theorem fieldPass_err (rec : Env → GoValue → GoValue → COut) (env : Env)
    (hrec : ∀ t f e t2 f2, rec env t f = .ok (some e) t2 f2 → e = unaddressableMsg) :
    ∀ (fields : List FieldT) (dest source : GoValue) (sa : Bool) (m : String) (d s : GoValue),
      fieldPass rec env fields dest source sa = .fail m d s → m = unaddressableMsg := by
  intro fields
  induction fields with
  | nil => intro dest source sa m d s h; cases h
  | cons fd rest ih =>
      intro dest source sa m d s h
      obtain ⟨name, fty, fanon⟩ := fd
      unfold fieldPass at h
      repeat' (first | split at h | dsimp only at h)
      all_goals try (exact ih _ _ _ _ _ _ h)
      all_goals cases h
      all_goals exact hrec _ _ _ _ _ (by assumption)

theorem iterCopy_err (rec : Env → GoValue → GoValue → COut) (env : Env)
    (hrec : ∀ t f e t2 f2, rec env t f = .ok (some e) t2 f2 → e = unaddressableMsg) :
    ∀ (cnt idx : Nat) (isSlice : Bool) (toT fromT : GoType) (toV fromV : GoValue) (sa0 : Bool)
      (m : String) (d s : GoValue),
      iterCopy rec env isSlice cnt idx toT fromT toV fromV sa0 = .fail m d s →
        m = unaddressableMsg := by
  intro cnt
  induction cnt with
  | zero => intro idx isSlice toT fromT toV fromV sa0 m d s h; cases h
  | succ c ihc =>
      intro idx isSlice toT fromT toV fromV sa0 m d s h
      unfold iterCopy at h
      repeat' (first | split at h | dsimp only at h)
      all_goals try (exact ihc _ _ _ _ _ _ _ _ _ _ h)
      all_goals cases h
      all_goals exact fieldPass_err rec env hrec _ _ _ _ _ _ _ (by assumption)

theorem copyFuel_err : ∀ (fuel : Nat) (env : Env) (toValue fromValue : GoValue)
    (e : String) (t f : GoValue),
    copyFuel fuel env toValue fromValue = .ok (some e) t f → e = unaddressableMsg := by
  intro fuel
  induction fuel with
  | zero => intro env toV fromV e t f h; cases h
  | succ n ih =>
      intro env toV fromV e t f h
      have hrec : ∀ a b c d2 e2, copyFuel n env a b = .ok (some c) d2 e2 → c = unaddressableMsg :=
        fun a b c d2 e2 hh => ih env a b c d2 e2 hh
      unfold copyFuel at h
      dsimp only at h
      repeat' split at h
      all_goals cases h
      · rfl
      · exact iterCopy_err (copyFuel n) env hrec _ _ _ _ _ _ _ _ _ _ _ (by assumption)

theorem sizeV_elemAt_le : ∀ (v : GoValue) (i : Nat), sizeV (elemAt v i) ≤ sizeV v
  | .invalid, _ => le_refl _
  | .vint _ _, _ => by simp [elemAt, sizeV]
  | .vstr _, _ => by simp [elemAt, sizeV]
  | .vptr _ p, _ => by
      simp only [elemAt, sizeV]
      have := sizeV_pos (GoValue.vptr .tinvalid p)
      simp only [sizeV] at this
      omega
  | .vslice t nl es, i => by
      simp only [elemAt]
      cases hg : es.get? i with
      | some e =>
          have := sizeL_get? es i e hg
          simp only [sizeV]
          omega
      | none => simp only [sizeV]; omega
  | .vmap _ _ _ _, _ => by simp only [elemAt, sizeV]; omega
  | .vstruct _ _ _ _ _, _ => by simp only [elemAt, sizeV]; omega

theorem fieldPass_nooof (rec : Env → GoValue → GoValue → COut) (env : Env)
    (hsrc : ∀ t f e t2 f2, rec env t f = .ok e t2 f2 → f2 = f) :
    ∀ (fields : List FieldT) (dest source : GoValue) (sa : Bool),
      (∀ t f, sizeV f < sizeV source → rec env t f ≠ .oof) →
      fieldPass rec env fields dest source sa ≠ .oof := by
  intro fields
  induction fields with
  | nil => intro dest source sa _ h; cases h
  | cons fd rest ih =>
      intro dest source sa hoof h
      obtain ⟨name, fty, fanon⟩ := fd
      unfold fieldPass at h
      split at h
      · cases h
      · exact ih _ _ _ hoof h
      · rename_i sp fromField hfb1
        split at h
        · cases h
        · rename_i dp toField hfb2
          split at h
          · cases h
          · split at h
            · cases h
            · exact ih _ _ _ hoof h
          · rename_i tf2 hsv
            split at h
            · cases h
            · rename_i dest2 hsp1
              dsimp only at h
              split at h
              · cases h
              · rename_i hrc
                exact hoof _ _ (fieldByName_size_lt _ _ _ _ hfb1) hrc
              · rename_i err toA fromA hrc
                have hfa : fromA = fromField := hsrc _ _ _ _ _ hrc
                rw [hfa] at h
                have hget := (fieldByName_getAtPath source name sp fromField hfb1).2
                have hid := setAtPath_getAtPath sp source fromField hget
                rw [hid] at h
                repeat' (first | split at h | dsimp only at h)
                all_goals first
                | (cases h)
                | (exact ih _ _ _ hoof h)
                | (rename_i s2 hss xerr
                   injection hss with hss2
                   subst hss2
                   exact ih _ _ _ hoof h)
        · split at h
          · split at h
            · exact ih _ _ _ hoof h
            · exact ih _ _ _ hoof h
          · exact ih _ _ _ hoof h

theorem iterCopy_nooof (rec : Env → GoValue → GoValue → COut) (env : Env)
    (hsrc : ∀ t f e t2 f2, rec env t f = .ok e t2 f2 → f2 = f) :
    ∀ (cnt idx : Nat) (isSlice : Bool) (toT fromT : GoType) (toV fromV : GoValue) (sa0 : Bool),
      (∀ t f, sizeV f < sizeV fromV → rec env t f ≠ .oof) →
      iterCopy rec env isSlice cnt idx toT fromT toV fromV sa0 ≠ .oof := by
  intro cnt
  induction cnt with
  | zero => intro idx isSlice toT fromT toV fromV sa0 _ h; cases h
  | succ c ihc =>
    intro idx isSlice toT fromT toV fromV sa0 hoof h
    unfold iterCopy at h
    by_cases h1 : isSlice = true <;> by_cases h2 : (kindOfV fromV == GKind.kSlice) = true <;>
      simp only [Bool.not_eq_true] at h1 h2 <;>
      simp only [h1, h2, Bool.true_and, Bool.false_and, Bool.and_true, Bool.and_false,
        Bool.false_eq_true, Bool.true_eq_false, if_true, if_false, ite_false, ite_true] at h <;>
      (split at h
       · cases h
       · rename_i hfp
         refine fieldPass_nooof rec env hsrc _ _ _ _ ?_ hfp
         intro t f hf
         refine hoof t f ?_
         have hle : sizeV f < sizeV fromV := by
           first
           | (have ha := sizeV_indirect_le (elemAt fromV idx)
              have hb := sizeV_elemAt_le fromV idx
              omega)
           | (have ha := sizeV_indirect_le fromV
              omega)
         exact hle
       · cases h
       · rename_i d2 s2 hfp
         split at h
         · cases h
         · rename_i dest3 hmp
           have hq := fieldPass_src_ok rec env hsrc hfp
           first
           | (rw [hq, putBack_indirect, setElemAt_elemAt] at h; exact ihc _ _ _ _ _ _ _ hoof h)
           | (rw [hq, putBack_indirect] at h; exact ihc _ _ _ _ _ _ _ hoof h))

theorem copyFuel_nooof : ∀ (fuel : Nat) (fromValue : GoValue), sizeV fromValue < fuel →
    ∀ (env : Env) (toValue : GoValue), copyFuel fuel env toValue fromValue ≠ .oof := by
  intro fuel
  induction fuel with
  | zero => intro fromV h env toV hc; omega
  | succ n ih =>
    intro fromV hsz env toV h
    have hrec : ∀ a b c d2 e2, copyFuel n env a b = .ok c d2 e2 → e2 = b :=
      fun a b c d2 e2 hh => copyFuel_src n env a b c d2 e2 hh
    unfold copyFuel at h
    dsimp only at h
    repeat' split at h
    all_goals try (exact COut.noConfusion h)
    rename_i hit
    refine iterCopy_nooof (copyFuel n) env hrec _ _ _ _ _ _ _ _ ?_ hit
    intro t f hf
    have h1 := sizeV_indirect_le fromV
    exact ih f (by omega) env t

/-- A slice-kinded type is a slice type. -/
theorem kindOfT_slice_ex : ∀ t, kindOfT t = .kSlice → ∃ e, t = .tslice e
  | .tinvalid, h => by cases h
  | .tint _, h => by cases h
  | .tstring, h => by cases h
  | .tptr _, h => by cases h
  | .tslice e, _ => ⟨e, rfl⟩
  | .tmap _ _, h => by cases h
  | .tstruct _ _ _ _, h => by cases h

/-- The post-prelude body of `set` cannot panic when the destination slot
already has the type `set` captured (no pointer rebinding) and the two
capability-driven raw writes are type-compatible: a Stringer source only
meets a string destination, and a Valuer source only meets a
`map[string]string` destination when the destination kind is map. -/
theorem setBody_no_err (env : Env) (toV fromV : GoValue) (fromAddr : Bool) (m : String)
    (hb : fromAddr = true → (capsOf (typeOf fromV)).stringer = true →
        kindOfV toV = .kString)
    (hc : fromAddr = true → (capsOf (typeOf fromV)).valuer = true →
        kindOfV toV = .kMap → tyEq (typeOf toV) (.tmap .tstring .tstring) = true)
    (h : setBody env toV (kindOfV toV) (typeOf toV) fromV (kindOfV fromV) fromAddr
        = .done (.error m)) :
    False := by
  unfold setBody at h
  by_cases h1 : (capsOf (typeOf toV)).timestamp = true
  · rw [if_pos h1] at h; cases h
  rw [if_neg h1] at h
  by_cases h2 : (fromAddr && (capsOf (typeOf fromV)).timestamp) = true
  · rw [if_pos h2] at h; cases h
  rw [if_neg h2] at h
  by_cases h3 : convertibleTo (typeOf fromV) (typeOf toV) = true
  · rw [if_pos h3, if_pos (tyEq_refl (typeOf toV))] at h; cases h
  rw [if_neg h3] at h
  by_cases h4 : (capsOf (typeOf toV)).scanner = true
  · rw [if_pos h4] at h
    by_cases h4a : (goHasSuffix (pkgPathOf (typeOf toV)) "nulls"
        && decide ((vstr2Of env fromV (kindOfV fromV) (typeOf toV)).length < 1)) = true
    · rw [if_pos h4a] at h; cases h
    rw [if_neg h4a] at h
    cases hsc : env.scanImpl (structName (typeOf toV)) toV
        (if (vstr2Of env fromV (kindOfV fromV) (typeOf toV) != "") = true
         then GoValue.vstr (vstr2Of env fromV (kindOfV fromV) (typeOf toV)) else fromV) <;>
      rw [hsc] at h <;> cases h
  rw [if_neg h4] at h
  by_cases h5 : (fromAddr && (capsOf (typeOf fromV)).valuer) = true
  · rw [if_pos h5] at h
    cases hv : env.valueImpl (structName (typeOf fromV)) fromV with
    | none => rw [hv] at h; cases h
    | some val =>
      rw [hv] at h
      dsimp only at h
      cases val with
      | vstr s =>
        dsimp only at h
        by_cases h5a : (kindOfV toV == GKind.kString) = true
        · rw [if_pos h5a, if_pos h5a] at h; cases h
        rw [if_neg h5a] at h
        by_cases h5b : (kindOfV toV == GKind.kMap) = true
        · rw [if_pos h5b] at h
          cases hm : env.jsonUnMapSS s with
          | none => rw [hm] at h; cases h
          | some ms =>
            rw [hm] at h
            dsimp only at h
            have hand : fromAddr = true ∧ (capsOf (typeOf fromV)).valuer = true := by
              simpa using h5
            have hmap := hc hand.1 hand.2 (eq_of_beq h5b)
            rw [if_pos hmap] at h; cases h
        rw [if_neg h5b] at h
        by_cases h5c : (kindOfV toV == GKind.kSlice) = true
        · rw [if_pos h5c] at h
          by_cases h5d : (kindOfT (elemOfType (typeOf toV)) == GKind.kString) = true
          · rw [if_pos h5d] at h
            obtain ⟨e, he⟩ := kindOfT_slice_ex (typeOf toV) (eq_of_beq h5c)
            have hes : kindOfT (elemOfType (typeOf toV)) = GKind.kString := eq_of_beq h5d
            rw [he] at hes
            have he2 : e = GoType.tstring := kindOfT_string_eq e hes
            cases hl : env.jsonUnListS s with
            | none => rw [hl] at h; cases h
            | some sl =>
              rw [hl] at h
              dsimp only at h
              have hty : tyEq (typeOf toV) (GoType.tslice .tstring) = true := by
                rw [he, he2]; exact tyEq_refl _
              rw [if_pos hty] at h; cases h
          · rw [if_neg h5d] at h; cases h
        rw [if_neg h5c] at h; cases h
      | invalid => cases h
      | vint b v => cases h
      | vptr e p => cases h
      | vslice e n xs => cases h
      | vmap k v n xs => cases h
      | vstruct n p c f vs => cases h
  rw [if_neg h5] at h
  by_cases h6 : (fromAddr && (capsOf (typeOf fromV)).stringer) = true
  · rw [if_pos h6] at h
    have hand : fromAddr = true ∧ (capsOf (typeOf fromV)).stringer = true := by
      simpa using h6
    have hstr : kindOfV toV = GKind.kString := hb hand.1 hand.2
    have : (kindOfV toV == GKind.kString) = true := by rw [hstr]; rfl
    rw [if_pos this] at h; cases h
  rw [if_neg h6] at h
  by_cases h7 : (kindOfV fromV == GKind.kPtr) = true
  · rw [if_pos h7] at h; cases h
  rw [if_neg h7] at h; cases h

/-- `set` cannot panic when the destination slot is not pointer-kinded,
any Stringer capability on the (dereferenced) source meets a string-kinded
destination, and any Valuer capability meets a `map[string]string`
destination whenever the destination kind is map. -/
theorem setVal_no_err : ∀ (fromV : GoValue) (env : Env) (toV : GoValue) (m : String)
    (fromAddr : Bool),
    (kindOfV toV == GKind.kPtr) = false →
    ((capsOf (typeOf (indirect fromV))).stringer = true → kindOfV toV = GKind.kString) →
    ((capsOf (typeOf (indirect fromV))).valuer = true → kindOfV toV = GKind.kMap →
        tyEq (typeOf toV) (GoType.tmap .tstring .tstring) = true) →
    setVal env toV fromV fromAddr ≠ Except.error m
  | .invalid, env, toV, m, fromAddr, ha, hb, hc => by
      intro h
      unfold setVal at h
      simp only [isValid] at h
      cases h
  | .vint b v, env, toV, m, fromAddr, ha, hb, hc => by
      intro h
      unfold setVal at h
      simp only [isValid, ha] at h
      cases hsb : setBody env toV (kindOfV toV) (typeOf toV) (GoValue.vint b v)
          (kindOfV (GoValue.vint b v)) fromAddr with
      | done r =>
          rw [hsb] at h
          dsimp only at h
          subst h
          exact setBody_no_err env toV _ fromAddr m (fun _ => hb) (fun _ => hc) hsb
      | recurse =>
          rw [hsb] at h
          cases h
  | .vstr s, env, toV, m, fromAddr, ha, hb, hc => by
      intro h
      unfold setVal at h
      simp only [isValid, ha] at h
      cases hsb : setBody env toV (kindOfV toV) (typeOf toV) (GoValue.vstr s)
          (kindOfV (GoValue.vstr s)) fromAddr with
      | done r =>
          rw [hsb] at h
          dsimp only at h
          subst h
          exact setBody_no_err env toV _ fromAddr m (fun _ => hb) (fun _ => hc) hsb
      | recurse =>
          rw [hsb] at h
          cases h
  | .vslice e n xs, env, toV, m, fromAddr, ha, hb, hc => by
      intro h
      unfold setVal at h
      simp only [isValid, ha] at h
      cases hsb : setBody env toV (kindOfV toV) (typeOf toV) (GoValue.vslice e n xs)
          (kindOfV (GoValue.vslice e n xs)) fromAddr with
      | done r =>
          rw [hsb] at h
          dsimp only at h
          subst h
          exact setBody_no_err env toV _ fromAddr m (fun _ => hb) (fun _ => hc) hsb
      | recurse =>
          rw [hsb] at h
          cases h
  | .vmap k v n xs, env, toV, m, fromAddr, ha, hb, hc => by
      intro h
      unfold setVal at h
      simp only [isValid, ha] at h
      cases hsb : setBody env toV (kindOfV toV) (typeOf toV) (GoValue.vmap k v n xs)
          (kindOfV (GoValue.vmap k v n xs)) fromAddr with
      | done r =>
          rw [hsb] at h
          dsimp only at h
          subst h
          exact setBody_no_err env toV _ fromAddr m (fun _ => hb) (fun _ => hc) hsb
      | recurse =>
          rw [hsb] at h
          cases h
  | .vstruct n p c f vs, env, toV, m, fromAddr, ha, hb, hc => by
      intro h
      unfold setVal at h
      simp only [isValid, ha] at h
      cases hsb : setBody env toV (kindOfV toV) (typeOf toV) (GoValue.vstruct n p c f vs)
          (kindOfV (GoValue.vstruct n p c f vs)) fromAddr with
      | done r =>
          rw [hsb] at h
          dsimp only at h
          subst h
          exact setBody_no_err env toV _ fromAddr m (fun _ => hb) (fun _ => hc) hsb
      | recurse =>
          rw [hsb] at h
          cases h
  | .vptr e none, env, toV, m, fromAddr, ha, hb, hc => by
      intro h
      unfold setVal at h
      simp only [isValid, ha] at h
      cases hsb : setBody env toV (kindOfV toV) (typeOf toV) (GoValue.vptr e none)
          (kindOfV (GoValue.vptr e none)) fromAddr with
      | done r =>
          rw [hsb] at h
          dsimp only at h
          subst h
          exact setBody_no_err env toV _ fromAddr m
            (fun _ hst => absurd hst (by simp [typeOf, capsOf]))
            (fun _ hvl => absurd hvl (by simp [typeOf, capsOf])) hsb
      | recurse =>
          rw [hsb] at h
          cases h
  | .vptr e (some el), env, toV, m, fromAddr, ha, hb, hc => by
      intro h
      unfold setVal at h
      simp only [isValid, ha] at h
      cases hsb : setBody env toV (kindOfV toV) (typeOf toV) (GoValue.vptr e (some el))
          (kindOfV (GoValue.vptr e (some el))) fromAddr with
      | done r =>
          rw [hsb] at h
          dsimp only at h
          subst h
          exact setBody_no_err env toV _ fromAddr m
            (fun _ hst => absurd hst (by simp [typeOf, capsOf]))
            (fun _ hvl => absurd hvl (by simp [typeOf, capsOf])) hsb
      | recurse =>
          rw [hsb] at h
          dsimp only at h
          exact setVal_no_err el env toV m true ha hb hc h

/-- One iteration of the slice-destination loop in the element-mapped
scenario: the element at `idx` is field-copied into a fresh destination
element which is appended, and the source slice is left unchanged. -/
theorem c5_step (rec : Env → GoValue → GoValue → COut) (k idx : Nat) (a : Int)
    (l : List GoValue) (nilflag : Bool) (acc : List GoValue)
    (hget : l.get? idx = some (mkSrcE a)) :
    iterCopy rec env0 true (k+1) idx tDstE tSrcE (.vslice tDstE nilflag acc)
        (.vslice tSrcE false l) false
      = iterCopy rec env0 true k (idx+1) tDstE tSrcE
          (.vslice tDstE false (acc ++ [mkDstE (wrapInt 32 a)])) (.vslice tSrcE false l) false := by
  have hset : l.set idx (mkSrcE a) = l := list_set_get? l idx _ hget
  have hfp : fieldPass rec env0 (deepFields tSrcE) (indirect (zeroValue tDstE))
      (indirect (mkSrcE a)) (isValid (indirect (mkSrcE a)))
      = PassOut.ok (mkDstE (wrapInt 32 a)) (mkSrcE a) := rfl
  have hmp : methodPass env0 (deepFields tDstE) (mkDstE (wrapInt 32 a)) (mkSrcE a)
      (isValid (indirect (mkSrcE a))) = Except.ok (mkDstE (wrapInt 32 a)) := rfl
  conv_lhs => rw [iterCopy]
  simp only [elemAt, hget, setElemAt, hset, kindOfV, typeOf, kindOfT, beq_self_eq_true,
    Bool.true_and, Bool.and_self, if_true]
  rw [hfp]
  dsimp only
  rw [hmp]
  dsimp only
  rw [show putBack (mkSrcE a) (mkSrcE a) = mkSrcE a from rfl, hset]
  rfl

theorem c5_loop (rec : Env → GoValue → GoValue → COut) (ys : List Int) :
    ∀ (k idx : Nat) (acc : List GoValue) (nilflag : Bool),
    idx + k = ys.length →
    iterCopy rec env0 true k idx tDstE tSrcE (.vslice tDstE nilflag acc)
        (.vslice tSrcE false (ys.map mkSrcE)) false
      = PassOut.ok (.vslice tDstE (if k = 0 then nilflag else false)
            (acc ++ ((ys.drop idx).map (fun a => mkDstE (wrapInt 32 a)))))
          (.vslice tSrcE false (ys.map mkSrcE)) := by
  intro k
  induction k with
  | zero =>
      intro idx acc nilflag h
      have hidx : idx = ys.length := by omega
      rw [iterCopy]
      rw [hidx, List.drop_length]
      simp
  | succ k ih =>
      intro idx acc nilflag h
      have hlt : idx < ys.length := by omega
      have hget : (ys.map mkSrcE).get? idx = some (mkSrcE (ys.get ⟨idx, hlt⟩)) := by
        rw [List.get?_map, List.get?_eq_get hlt]
        rfl
      rw [c5_step rec k idx _ _ nilflag acc hget]
      rw [ih (idx + 1) (acc ++ [mkDstE (wrapInt 32 (ys.get ⟨idx, hlt⟩))]) false (by omega)]
      have hdrop : ys.drop idx = ys.get ⟨idx, hlt⟩ :: ys.drop (idx + 1) :=
        List.drop_eq_get_cons hlt
      rw [hdrop]
      simp
      have hlt2 : idx < (List.map (fun a => mkDstE (wrapInt 32 a)) ys).length := by
        simpa using hlt
      rw [List.drop_eq_getElem_cons hlt2]
      simp

theorem c5_main (xs : List Int) :
    Copy env0 (.vptr (.tslice tDstE) (some (.vslice tDstE true [])))
        (.vslice tSrcE false (xs.map mkSrcE))
      = COut.ok none
          (.vptr (.tslice tDstE)
            (some (.vslice tDstE xs.isEmpty (xs.map (fun a => mkDstE (wrapInt 32 a))))))
          (.vslice tSrcE false (xs.map mkSrcE)) := by
  have hlen : lenV (GoValue.vslice tSrcE false (List.map mkSrcE xs)) = xs.length := by
    simp [lenV]
  show (match iterCopy (copyFuel (sizeV (GoValue.vslice tSrcE false (List.map mkSrcE xs)))) env0
      true (lenV (GoValue.vslice tSrcE false (List.map mkSrcE xs))) 0 tDstE tSrcE
      (GoValue.vslice tDstE true []) (GoValue.vslice tSrcE false (List.map mkSrcE xs)) false with
    | PassOut.ok t f =>
        COut.ok none
          (putBack (GoValue.vptr (.tslice tDstE) (some (.vslice tDstE true []))) t)
          (putBack (GoValue.vslice tSrcE false (List.map mkSrcE xs)) f)
    | PassOut.fail m t f =>
        COut.ok (some m)
          (putBack (GoValue.vptr (.tslice tDstE) (some (.vslice tDstE true []))) t)
          (putBack (GoValue.vslice tSrcE false (List.map mkSrcE xs)) f)
    | PassOut.panic m => COut.panic m
    | PassOut.oof => COut.oof) = _
  rw [hlen,
    c5_loop (copyFuel (sizeV (GoValue.vslice tSrcE false (List.map mkSrcE xs)))) xs
      xs.length 0 [] true (by omega)]
  cases xs with
  | nil => rfl
  | cons a t => rfl

-- ── Claim theorems ──

/-- C1 (amended): the value setter never panics and returns an ok
(true/false) result, provided the destination slot is not pointer-kinded
(pointer slots can rebind `to` while the captured kind and type go stale),
a Stringer-capable source is paired with a string-kinded destination, and
a Valuer-capable source meeting a map-kinded destination has destination
type `map[string]string`. -/
theorem spec_c1 (env : Env) (toV fromV : GoValue) (fromAddr : Bool)
    (ha : (kindOfV toV == GKind.kPtr) = false)
    (hb : (capsOf (typeOf (indirect fromV))).stringer = true → kindOfV toV = GKind.kString)
    (hc : (capsOf (typeOf (indirect fromV))).valuer = true → kindOfV toV = GKind.kMap →
        tyEq (typeOf toV) (GoType.tmap .tstring .tstring) = true) :
    ∃ r, setVal env toV fromV fromAddr = Except.ok r := by
  cases hs : setVal env toV fromV fromAddr with
  | ok r => exact ⟨r, rfl⟩
  | error m => exact absurd hs (setVal_no_err fromV env toV m fromAddr ha hb hc)

theorem spec_c1_witness :
    ((kindOfV (GoValue.vint 64 0) == GKind.kPtr) = false)
    ∧ ∃ r, setVal env0 (GoValue.vint 64 0) (GoValue.vint 64 5) false = Except.ok r :=
  ⟨by decide, spec_c1 env0 (GoValue.vint 64 0) (GoValue.vint 64 5) false (by decide)
    (fun h => absurd h (by decide)) (fun h => absurd h (by decide))⟩

/-- C1 counterexample: a Stringer-capable addressable source paired with
an int destination slot drives `set` into `to.SetString` on a non-string
value, a reflect panic (src/copier.go line 268). -/
theorem spec_c1_cex :
    setVal env0 (GoValue.vint 64 0) strSrcVal true = Except.error panicSetString := rfl

/-- C2 (amended): a field of an embedded type is reachable by promoted
name and receives the copied value when the promotion is unambiguous; when
two embedded types at the same depth both declare the name, `FieldByName`
resolves to no field and the value is not copied at all (neither
descriptor wins). -/
theorem spec_c2 :
    (Copy env0 (.vptr tD1 (some (zeroValue tD1))) srcS2
      = .ok none
          (.vptr tD1 (some (.vstruct "D1" "main" noCaps [("A", tA, true)]
            [.vstruct "A" "main" noCaps [("X", .tint 64, false)] [.vint 64 5]])))
          srcS2)
    ∧ (Copy env0 (.vptr tD2 (some (zeroValue tD2))) srcS2
      = .ok none (.vptr tD2 (some (zeroValue tD2))) srcS2) := ⟨rfl, rfl⟩

/-- C2 counterexample: with two embedded types both declaring `X`, the
name is not reachable at the parent (the promoted-field search is
ambiguous), and after `Copy` the destination is untouched: the first
descriptor's field holds zero, not the source's value. -/
theorem spec_c2_cex :
    fieldPath tD2 "X" = none
    ∧ Copy env0 (.vptr tD2 (some (zeroValue tD2))) srcS2
        = .ok none (.vptr tD2 (some (zeroValue tD2))) srcS2 := ⟨rfl, rfl⟩

/-- C3 (amended): Scanner/Valuer/JSON failures are downgraded to a boolean
and the unaddressable-destination message is the only error text `Copy`
ever returns; but the recursive fallback can itself return that error (for
a pointer-to-pointer destination field), so an addressable destination
does not guarantee a nil error. -/
theorem spec_c3 (env : Env) (toValue fromValue : GoValue) (e : String) (t f : GoValue)
    (h : Copy env toValue fromValue = .ok (some e) t f) : e = unaddressableMsg :=
  copyFuel_err _ env toValue fromValue e t f h

theorem spec_c3_witness :
    Copy env0 (GoValue.vint 64 0) (GoValue.vint 64 5)
        = .ok (some unaddressableMsg) (GoValue.vint 64 0) (GoValue.vint 64 5)
    ∧ unaddressableMsg = unaddressableMsg :=
  ⟨rfl, spec_c3 env0 (GoValue.vint 64 0) (GoValue.vint 64 5) unaddressableMsg
    (GoValue.vint 64 0) (GoValue.vint 64 5) rfl⟩

/-- C3 counterexample: the destination resolves to an addressable value,
yet `Copy` returns the unaddressable error, raised by the recursive call
on the `**int64` field (whose `.Elem()` after one allocation is a nil
pointer, unaddressable after indirection). -/
theorem spec_c3_cex :
    canAddrIndirect (.vptr tD3 (some (zeroValue tD3))) = true
    ∧ Copy env0 (.vptr tD3 (some (zeroValue tD3))) srcS3
      = .ok (some unaddressableMsg)
          (.vptr tD3 (some (.vstruct "D3" "main" noCaps
            [("P", .tptr (.tptr (.tint 64)), false)]
            [.vptr (.tptr (.tint 64)) (some (.vptr (.tint 64) none))])))
          srcS3 := ⟨rfl, rfl⟩

/-- C4 (amended): when the destination slot or the addressable source
exposes the timestamp capability, `set` returns success with the
destination unchanged — provided the destination slot is not
pointer-kinded: a nil pointer slot is allocated by the pointer prelude
before the timestamp check runs. -/
theorem spec_c4 (env : Env) (toV fromV : GoValue) (fromAddr : Bool)
    (ha : (kindOfV toV == GKind.kPtr) = false)
    (hts : (capsOf (typeOf toV)).timestamp = true ∨
      (fromAddr = true ∧ (capsOf (typeOf fromV)).timestamp = true)) :
    setVal env toV fromV fromAddr = .ok (true, toV) := by
  have hbody : setBody env toV (kindOfV toV) (typeOf toV) fromV (kindOfV fromV) fromAddr
      = .done (.ok (true, toV)) := by
    unfold setBody
    rcases hts with h | ⟨hfa, hft⟩
    · rw [if_pos h]
    · by_cases hd : (capsOf (typeOf toV)).timestamp = true
      · rw [if_pos hd]
      · rw [if_neg hd, if_pos (show (fromAddr && (capsOf (typeOf fromV)).timestamp) = true by
          rw [hfa, hft]; rfl)]
  unfold setVal
  simp only [ha]
  by_cases hv : isValid fromV = false
  · rw [if_pos hv]
  · rw [if_neg hv, if_neg Bool.false_ne_true, hbody]

theorem spec_c4_witness :
    ((kindOfV (zeroValue tTimestamp) == GKind.kPtr) = false)
    ∧ (capsOf (typeOf (zeroValue tTimestamp))).timestamp = true
    ∧ setVal env0 (zeroValue tTimestamp) (GoValue.vint 64 5) false
        = Except.ok (true, zeroValue tTimestamp) :=
  ⟨by decide, by decide,
    spec_c4 env0 (zeroValue tTimestamp) (GoValue.vint 64 5) false (by decide)
      (Or.inl (by decide))⟩

/-- C4 counterexample: a nil pointer destination slot whose pointee type
is timestamp-capable is written (allocated) by `set`: the prelude's
`to.Set(reflect.New(toType.Elem()))` runs before the timestamp check. -/
theorem spec_c4_cex :
    setVal env0 (.vptr tTimestamp none) (GoValue.vint 64 5) false
        = Except.ok (true, .vptr tTimestamp (some (zeroValue tTimestamp)))
    ∧ GoValue.vptr tTimestamp (some (zeroValue tTimestamp)) ≠ GoValue.vptr tTimestamp none :=
  ⟨rfl, fun h => by injection h with h1 h2; exact Option.noConfusion h2⟩

/-- C5: copying a slice source into a slice destination of a
structurally-compatible but distinct element type yields one destination
element per source element, each field-mapped (the int64 field is
converted to int32); copying a single struct source into a slice
destination yields a one-element slice. -/
theorem spec_c5 (xs : List Int) (a : Int) :
    (Copy env0 (.vptr (.tslice tDstE) (some (.vslice tDstE true [])))
        (.vslice tSrcE false (xs.map mkSrcE))
      = COut.ok none
          (.vptr (.tslice tDstE)
            (some (.vslice tDstE xs.isEmpty (xs.map (fun a => mkDstE (wrapInt 32 a))))))
          (.vslice tSrcE false (xs.map mkSrcE)))
    ∧ (Copy env0 (.vptr (.tslice tDstE) (some (.vslice tDstE true []))) (mkSrcE a)
      = COut.ok none
          (.vptr (.tslice tDstE) (some (.vslice tDstE false [mkDstE (wrapInt 32 a)])))
          (mkSrcE a)) :=
  ⟨c5_main xs, rfl⟩

/-- C6: a Scanner destination field in a nulls package with an empty
string source field and no direct conversion is left untouched, and `Copy`
returns nil. -/
theorem spec_c6 (s : String) (b : Int) :
    Copy env0 (.vptr tDB (some (mkDB (mkNullsVal s b)))) srcSA
      = .ok none (.vptr tDB (some (mkDB (mkNullsVal s b)))) srcSA := rfl

/-- C7: when the destination does not resolve to an addressable value,
`Copy` returns the unaddressable-destination error immediately and both
arguments are returned unchanged. -/
theorem spec_c7 (env : Env) (toValue fromValue : GoValue)
    (h : canAddrIndirect toValue = false) :
    Copy env toValue fromValue = .ok (some unaddressableMsg) toValue fromValue := by
  unfold Copy copyFuel
  rw [h]
  rfl

theorem spec_c7_witness :
    canAddrIndirect (GoValue.vint 64 0) = false
    ∧ Copy env0 (GoValue.vint 64 0) (GoValue.vint 64 5)
        = .ok (some unaddressableMsg) (GoValue.vint 64 0) (GoValue.vint 64 5) :=
  ⟨rfl, spec_c7 env0 (GoValue.vint 64 0) (GoValue.vint 64 5) rfl⟩

/-- C8: with an addressable destination, a source that is invalid after
indirection (a nil pointer, or an invalid value) makes `Copy` return nil
with both arguments unchanged. -/
theorem spec_c8 (env : Env) (toValue fromValue : GoValue)
    (h1 : canAddrIndirect toValue = true)
    (h2 : isValid (indirect fromValue) = false) :
    Copy env toValue fromValue = .ok none toValue fromValue := by
  unfold Copy copyFuel
  rw [h1]
  rw [if_neg (by decide : ¬((!true) = true)), if_pos h2]

theorem spec_c8_witness :
    canAddrIndirect (GoValue.vptr (.tint 64) (some (GoValue.vint 64 0))) = true
    ∧ isValid (indirect (GoValue.vptr (.tint 64) none)) = false
    ∧ Copy env0 (GoValue.vptr (.tint 64) (some (GoValue.vint 64 0)))
        (GoValue.vptr (.tint 64) none)
        = .ok none (GoValue.vptr (.tint 64) (some (GoValue.vint 64 0)))
            (GoValue.vptr (.tint 64) none) :=
  ⟨rfl, rfl,
    spec_c8 env0 (GoValue.vptr (.tint 64) (some (GoValue.vint 64 0)))
      (GoValue.vptr (.tint 64) none) rfl rfl⟩

/-- C9: `Copy` never mutates the source: every normal return carries the
source argument unchanged. -/
theorem spec_c9 (env : Env) (toValue fromValue : GoValue) (e : Option String)
    (t f : GoValue)
    (h : Copy env toValue fromValue = .ok e t f) : f = fromValue :=
  copyFuel_src _ env toValue fromValue e t f h

theorem spec_c9_witness :
    Copy env0 (GoValue.vptr (.tint 64) (some (GoValue.vint 64 0))) (GoValue.vint 64 5)
        = .ok none (GoValue.vptr (.tint 64) (some (GoValue.vint 64 5))) (GoValue.vint 64 5)
    ∧ GoValue.vint 64 5 = GoValue.vint 64 5 :=
  ⟨rfl,
    spec_c9 env0 (GoValue.vptr (.tint 64) (some (GoValue.vint 64 0))) (GoValue.vint 64 5)
      none (GoValue.vptr (.tint 64) (some (GoValue.vint 64 5))) (GoValue.vint 64 5) rfl⟩

/-- C10: `Copy` terminates on every pair of (finite) input values: with
fuel one larger than the size of the source value, the model never
exhausts its fuel. -/
theorem spec_c10 (env : Env) (toValue fromValue : GoValue) :
    notOof (Copy env toValue fromValue) = true := by
  cases hc : Copy env toValue fromValue with
  | oof =>
      exact absurd hc
        (copyFuel_nooof (sizeV fromValue + 1) fromValue (by omega) env toValue)
  | ok e t f => rfl
  | panic m => rfl
